import Mathlib

/-!
Shallow embedding of the retrieval core of the mathmentor repository
(`src/data_processing/chunkers.py`, `src/data_processing/vector_store.py`,
`src/tutoring/document_processor.py`), together with theorems settling the
spec claims about chunk boundaries, similarity search, storage validation
and document-processing orchestration.

Python strings are modelled as `List Char`, floating-point numbers as `ℝ`,
Python `int` sizes and counts as `ℕ`, dictionaries with a fixed shape as
structures, and fallible calls to external collaborators (database RPCs,
embedding provider, file extraction) as `Except String`-valued oracle inputs.
-/

namespace MathMentor

/-! ### Data model: chunks produced by `MathChunker` (chunkers.py) -/

/-- Open key-value metadata map of a chunk, modelled as an association list. -/
abbrev Metadata := List (String × String)

/-- Python dict update `m[k] = v`: overwrite the value when the key is present,
otherwise append the new binding. -/
def setMeta (m : Metadata) (k v : String) : Metadata :=
  if m.any (fun p => p.1 == k) then
    m.map (fun p => if p.1 == k then (k, v) else p)
  else
    m ++ [(k, v)]

/-- One chunk dictionary as built by `MathChunker` (chunkers.py lines 56-62,
79-85, 157-163, 180-186). -/
structure Chunk where
  content : List Char
  concept_name : String
  chunk_index : Nat
  chunk_type : String
  metadata : Metadata
deriving Repr, DecidableEq

/-- Chunker configuration (`MathChunker.__init__`, chunkers.py lines 18-27). -/
structure ChunkerConfig where
  chunk_size : Nat
  chunk_overlap : Nat
deriving Repr, DecidableEq

/-! ### Python string helpers used by the chunker -/

/-- Python `str.strip()`: remove leading and trailing whitespace. -/
def pyStrip (s : List Char) : List Char :=
  ((s.dropWhile Char.isWhitespace).reverse.dropWhile Char.isWhitespace).reverse

/-- Python `s[-n:]` for `n > 0`: the last `min n (length s)` elements. -/
def takeLast (n : Nat) (l : List α) : List α := l.drop (l.length - n)

/-- The two-newline joiner `"\n\n"` used when accumulating sections. -/
def nl2 : List Char := ['\n', '\n']

/-- Python `' '.join(words)`. -/
def joinWords : List (List Char) → List Char
  | [] => []
  | [w] => w
  | w :: rest => w ++ ' ' :: joinWords rest

/-- Python `text.split()`: split on whitespace runs, dropping empty pieces. -/
def pyWords (s : List Char) : List (List Char) :=
  let step : Char → List Char × List (List Char) → List Char × List (List Char) :=
    fun c acc =>
      if c.isWhitespace then ([], if acc.1 = [] then acc.2 else acc.1 :: acc.2)
      else (c :: acc.1, acc.2)
  let r := s.foldr step ([], [])
  if r.1 = [] then r.2 else r.1 :: r.2

/-! ### `MathChunker.chunk_by_concept` (chunkers.py lines 29-87)

The regex split on line 44 (`re.split` on blank-line runs, heading-like lines
and the markers Definition/Theorem/Example/Proof/Solution) is performed by the
external regex engine; the accumulation loop below is parametrised by the list
of boundary-segments that split produced, so theorems quantifying over all
section lists cover every text input. -/

/-- State of the accumulation loop of `chunk_by_concept`:
chunks emitted so far, the running buffer `current_chunk`, and `chunk_index`. -/
structure ConceptState where
  chunks : List Chunk
  current : List Char
  idx : Nat
deriving Repr, DecidableEq

/-- Build the chunk dictionary emitted by `chunk_by_concept`
(content is `current_chunk.strip()`, metadata starts empty). -/
def mkConceptChunk (concept : String) (content : List Char) (idx : Nat) : Chunk :=
  { content := pyStrip content
    concept_name := concept
    chunk_index := idx
    chunk_type := "concept"
    metadata := [] }

/-- One iteration of the `for section in sections` loop of `chunk_by_concept`
(chunkers.py lines 49-75). -/
def conceptStep (cfg : ChunkerConfig) (concept : String)
    (st : ConceptState) (sec : List Char) : ConceptState :=
  let s := pyStrip sec
  if s = [] then st
  else if st.current ≠ [] ∧ cfg.chunk_size < st.current.length + s.length then
    { chunks := st.chunks ++ [mkConceptChunk concept st.current st.idx]
      current :=
        if 0 < cfg.chunk_overlap then
          takeLast cfg.chunk_overlap st.current ++ nl2 ++ s
        else s
      idx := st.idx + 1 }
  else
    { st with current := if st.current = [] then s else st.current ++ nl2 ++ s }

/-- `MathChunker.chunk_by_concept`, as a function of the boundary-segments
produced by the regex split of the input text. -/
def chunk_by_concept (cfg : ChunkerConfig) (sections : List (List Char))
    (concept : String) : List Chunk :=
  let st := sections.foldl (conceptStep cfg concept) ⟨[], [], 0⟩
  if st.current = [] then st.chunks
  else st.chunks ++ [mkConceptChunk concept st.current st.idx]

/-- `MathChunker.chunk_by_difficulty` (chunkers.py lines 89-107): run
`chunk_by_concept`, then set `metadata['difficulty']` on every chunk. -/
def chunk_by_difficulty (cfg : ChunkerConfig) (sections : List (List Char))
    (difficulty concept : String) : List Chunk :=
  (chunk_by_concept cfg sections concept).map
    (fun c => { c with metadata := setMeta c.metadata "difficulty" difficulty })

/-! ### `MathChunker.chunk_simple` (chunkers.py lines 135-188) -/

/-- State of the word-packing loop of `chunk_simple`: emitted chunks, the
`current_chunk` word list, the tracked `current_length`, and `chunk_index`. -/
structure SimpleState where
  chunks : List Chunk
  current : List (List Char)
  len : Nat
  idx : Nat
deriving Repr, DecidableEq

/-- Build the chunk dictionary emitted by `chunk_simple`
(content is `' '.join(current_chunk)`). -/
def mkSimpleChunk (concept : String) (ws : List (List Char)) (idx : Nat) : Chunk :=
  { content := joinWords ws
    concept_name := concept
    chunk_index := idx
    chunk_type := "simple"
    metadata := [] }

/-- Number of trailing words kept as overlap: Python
`current_chunk[-self.chunk_overlap // 10:]` computes `(-overlap) // 10` with
floor division, so the slice keeps the last `⌈overlap / 10⌉` words. -/
def overlapWordCount (overlap : Nat) : Nat := (overlap + 9) / 10

/-- One iteration of the `for word in words` loop of `chunk_simple`
(chunkers.py lines 153-176). -/
def simpleStep (cfg : ChunkerConfig) (concept : String)
    (st : SimpleState) (w : List Char) : SimpleState :=
  let wl := w.length + 1
  if cfg.chunk_size < st.len + wl ∧ st.current ≠ [] then
    let chunks' := st.chunks ++ [mkSimpleChunk concept st.current st.idx]
    if 0 < cfg.chunk_overlap then
      let cur' := takeLast (overlapWordCount cfg.chunk_overlap) st.current ++ [w]
      { chunks := chunks', current := cur', len := (joinWords cur').length
        idx := st.idx + 1 }
    else
      { chunks := chunks', current := [w], len := wl, idx := st.idx + 1 }
  else
    { st with current := st.current ++ [w], len := st.len + wl }

/-- `MathChunker.chunk_simple`: whitespace word-packing fallback. -/
def chunk_simple (cfg : ChunkerConfig) (text : List Char)
    (concept : String) : List Chunk :=
  let st := (pyWords text).foldl (simpleStep cfg concept) ⟨[], [], 0, 0⟩
  if st.current = [] then st.chunks
  else st.chunks ++ [mkSimpleChunk concept st.current st.idx]

/-- Longest stripped boundary-segment of a section list. -/
def maxSectionLen (sections : List (List Char)) : Nat :=
  (sections.map (fun s => (pyStrip s).length)).foldr max 0

/-- Longest word of a text under Python `str.split()`. -/
def maxWordLen (text : List Char) : Nat :=
  ((pyWords text).map List.length).foldr max 0

/-! ### `VectorStore._cosine_similarity` (vector_store.py lines 154-174)

Python floats are embedded as real numbers. -/

/-- `sum(a * b for a, b in zip(vec1, vec2))`: Python `zip` truncates to the
shorter vector, so mismatched dimensions never raise. -/
noncomputable def dotProduct (v1 v2 : List ℝ) : ℝ :=
  ((v1.zip v2).map (fun p => p.1 * p.2)).sum

/-- `sum(a * a for a in vec)`. -/
noncomputable def sumSq (v : List ℝ) : ℝ := (v.map (fun a => a * a)).sum

/-- `math.sqrt(sum(a * a for a in vec))`. -/
noncomputable def magnitude (v : List ℝ) : ℝ := Real.sqrt (sumSq v)

/-- `VectorStore._cosine_similarity`: zero-magnitude vectors score `0`,
otherwise `dot / (||v1|| * ||v2||)`. -/
noncomputable def cosine_similarity (v1 v2 : List ℝ) : ℝ :=
  if magnitude v1 = 0 ∨ magnitude v2 = 0 then 0
  else dotProduct v1 v2 / (magnitude v1 * magnitude v2)

/-! ### `VectorStore.similarity_search` (vector_store.py lines 57-152)

The stored `embedding` column is dynamically typed; `RawEmb` models the
shapes the fallback loop distinguishes (lines 117-140). -/

/-- A raw `embedding` value fetched from the store.
* `null`: absent / `None` / empty list — falsy, skipped by
  `if chunk.get('embedding')`;
* `str p`: a string value; `p = some l` when `json.loads` yields the list
  `l`, `p = none` when parsing fails or yields a non-list (skipped);
* `vec l`: a non-empty list of numbers;
* `badvec`: a non-empty list containing non-numbers — `_cosine_similarity`
  raises on it and the `except` on line 138 skips the chunk. -/
inductive RawEmb where
  | null
  | str (parsed : Option (List ℝ))
  | vec (l : List ℝ)
  | badvec

/-- A stored chunk row as fetched by the fallback query. -/
structure StoredChunk where
  chunk_id : String
  content : String
  embedding : RawEmb

/-- The validation ladder of lines 117-140: which chunks reach the scoring
step, and with which embedding list. An empty `vec` is falsy in Python and
is skipped (while an empty list parsed out of a string is not). -/
def parseStoredEmbedding : RawEmb → Option (List ℝ)
  | .null => none
  | .str p => p
  | .vec l => if l.isEmpty then none else some l
  | .badvec => none

/-- Score one fetched chunk: skip it when its embedding is malformed, keep
`(chunk, similarity)` when `similarity >= threshold`. -/
noncomputable def scoreChunk (query : List ℝ) (threshold : ℝ)
    (c : StoredChunk) : Option (StoredChunk × ℝ) :=
  match parseStoredEmbedding c.embedding with
  | none => none
  | some emb =>
      let s := cosine_similarity query emb
      if threshold ≤ s then some (c, s) else none

/-- Score, filter by threshold, sort by similarity descending (stable, as
Python `list.sort(key=..., reverse=True)`), and truncate to `limit`
(lines 116-144). -/
noncomputable def fallbackRank (query : List ℝ) (lim : Nat) (threshold : ℝ)
    (chunks : List StoredChunk) : List (StoredChunk × ℝ) :=
  (((chunks.filterMap (scoreChunk query threshold)).mergeSort
      (fun a b => decide (b.2 ≤ a.2))).take lim)

/-- The Tier-2 fallback block (lines 109-148): a failed fetch returns `[]`
(exception logged, line 146-148), an empty fetch returns `[]` (line 112-113),
otherwise the local ranking runs. -/
noncomputable def fallback_scan (fetch : Except String (List StoredChunk))
    (query : List ℝ) (lim : Nat) (threshold : ℝ) : List (StoredChunk × ℝ) :=
  match fetch with
  | .error _ => []
  | .ok chunks => if chunks.isEmpty then [] else fallbackRank query lim threshold chunks

/-- `VectorStore.similarity_search`: the native RPC result and the fallback
fetch result are the two external-store oracles. The RPC result is returned
directly only when it is non-empty (`if result.data:` line 98); an RPC
exception is swallowed (lines 100-106) and the fallback block runs. Every
code path is wrapped in an exception handler, so the returned value is
always `Except.ok`; the `Except` codomain records the signature of a call
that could raise. -/
noncomputable def similarity_search (rpc : Except String (List (StoredChunk × ℝ)))
    (fetch : Except String (List StoredChunk))
    (query : List ℝ) (lim : Nat) (threshold : ℝ) :
    Except String (List (StoredChunk × ℝ)) :=
  Except.ok
    (match rpc with
     | .ok rows => if rows.isEmpty then fallback_scan fetch query lim threshold else rows
     | .error _ => fallback_scan fetch query lim threshold)

/-! ### `VectorStore.store_chunks` (vector_store.py lines 18-55) -/

/-- An input chunk dictionary passed to `store_chunks`. `embedding = none`
models a dictionary without the `'embedding'` key; `some l` models a present
key with value `l` (possibly the empty list). -/
structure InputChunk where
  content : String
  embedding : Option (List ℝ)
  chunk_index : Option Nat
  chunk_type : Option String
  metadata : Metadata

/-- A row inserted into `content_chunks` (lines 35-46). The merged metadata
dictionary of line 40-44 is modelled by the `chunk_index`/`chunk_type`
defaults plus the chunk's own metadata map. -/
structure ChunkRow where
  chunk_id : String
  concept_id : String
  content : String
  embedding : List ℝ
  chunk_index : Nat
  chunk_type : String
  extra_metadata : Metadata

/-- Build the inserted row for one chunk (`uuid` models `str(uuid.uuid4())`). -/
def toChunkRow (uuid concept_id : String) (c : InputChunk) (emb : List ℝ) : ChunkRow :=
  { chunk_id := uuid
    concept_id := concept_id
    content := c.content
    embedding := emb
    chunk_index := c.chunk_index.getD 0
    chunk_type := c.chunk_type.getD "simple"
    extra_metadata := c.metadata }

/-- The per-chunk loop of `store_chunks`. The first component is the store
state (rows actually inserted so far), the second the eventual call result:
the collected chunk ids, or the message of the raised `ValueError`. Inserts
themselves are modelled as succeeding and returning their row, with
`uuidGen i` the uuid generated at iteration `i`. -/
def storeChunksLoop (uuidGen : Nat → String) (concept_id : String) :
    Nat → List ChunkRow → List String → List InputChunk →
    List ChunkRow × Except String (List String)
  | _, rows, ids, [] => (rows, Except.ok ids)
  | i, rows, ids, c :: rest =>
      match c.embedding with
      | none => (rows, Except.error "Chunk must have embedding field before storing")
      | some emb =>
          let row := toChunkRow (uuidGen i) concept_id c emb
          storeChunksLoop uuidGen concept_id (i + 1)
            (rows ++ [row]) (ids ++ [row.chunk_id]) rest

/-- `VectorStore.store_chunks`. The validation on line 32 tests only key
presence (`'embedding' not in chunk`); rows inserted before a failing chunk
stay inserted. (The source `ValueError` message quotes the word embedding in
single quotation marks; they are omitted here.) -/
def store_chunks (uuidGen : Nat → String) (chunks : List InputChunk)
    (concept_id : String) : List ChunkRow × Except String (List String) :=
  storeChunksLoop uuidGen concept_id 0 [] [] chunks

/-! ### `DocumentProcessor.process_document` (document_processor.py lines 40-151)

External effects are oracles in a `ProcWorld`; the outcome records the call
result together with the observable effect trace (status updates written to
`teacher_documents`, embedding-stage invocations, rows inserted into
`document_chunks`). -/

/-- The `metadata` JSON column of a `teacher_documents` row, with the keys
the processor reads or writes. -/
structure DocMeta where
  chunk_count : Option Nat
  error : Option String
  processed_at : Option String
deriving Repr, DecidableEq

/-- A `teacher_documents` record as fetched on line 53. -/
structure DocRecord where
  title : String
  file_url : String
  file_type : Option String
  difficulty : Option String
  status : String
  metadata : DocMeta
deriving Repr, DecidableEq

/-- One `update(...)` call on the document row: new status, and the new
metadata value when the update also rewrites metadata. -/
structure StatusUpdate where
  status : String
  metadata : Option DocMeta
deriving Repr, DecidableEq

/-- Oracles for the external collaborators of one `process_document` call. -/
structure ProcWorld where
  /-- Result of the `.single().execute()` fetch of the document row
  (line 53): raised error, no row, or the record. -/
  fetched : Except String (Option DocRecord)
  /-- Number of rows of `document_chunks` for this document; the
  `limit(1)` existence check of line 63 returns data iff it is positive. -/
  existing_chunks : Nat
  /-- Result of `_extract_text_from_file` (line 80). -/
  extracted : Except String (List Char)
  /-- Boundary-segments the chunker regex split produces on the extracted
  text (external regex engine, cf. `chunk_by_concept`). -/
  sects : List (List Char)
  /-- The embedding-provider batch call on the chunk contents
  (`embed_chunks` → `generate_embeddings_batch`). -/
  embed : List (List Char) → Except String (List (List ℝ))

/-- Observable outcome of a `process_document` call. -/
structure ProcOutcome where
  /-- `ok n` = returned `{'success': True, 'chunk_count': n, ...}`;
  `error msg` = the call raised with message `msg`. -/
  result : Except String Nat
  status_updates : List StatusUpdate
  /-- Embedding-stage invocations that reach the provider (0 or 1). -/
  embed_calls : Nat
  /-- Rows inserted into `document_chunks`. -/
  stored_chunks : Nat

/-- Message prefix of the re-raise on line 151. -/
def wrapErr (e : String) : String := "Failed to process document: " ++ e

/-- Outcome of a failure raised before `document` is bound (lines 53-56):
the failure handler's own `document.get` raises `NameError`, the bare
`except: pass` swallows it, so no status update happens and the wrapped
exception propagates. -/
def preBindFailure (e : String) : ProcOutcome :=
  { result := Except.error (wrapErr e), status_updates := [], embed_calls := 0
    stored_chunks := 0 }

/-- Outcome of a failure raised after `document` is bound: status is set to
`failed` with the error message merged into the document's metadata
(lines 138-149), then the wrapped exception is re-raised (line 151). -/
def postBindFailure (d : DocRecord) (e : String) (calls stored : Nat) : ProcOutcome :=
  { result := Except.error (wrapErr e)
    status_updates := [⟨"processing", none⟩,
      ⟨"failed", some { d.metadata with error := some e }⟩]
    embed_calls := calls
    stored_chunks := stored }

/-- `DocumentProcessor.process_document` for one document id. The chunker is
constructed with `chunk_size=500, chunk_overlap=50` (line 35). -/
def process_document (w : ProcWorld) (document_id : String) : ProcOutcome :=
  match w.fetched with
  | .error e => preBindFailure e
  | .ok none => preBindFailure ("Document " ++ document_id ++ " not found")
  | .ok (some document) =>
      -- idempotency check, lines 61-70
      if document.status = "ready" ∧ 0 < w.existing_chunks then
        { result := Except.ok (document.metadata.chunk_count.getD 0)
          status_updates := [], embed_calls := 0, stored_chunks := 0 }
      else
        match w.extracted with
        | .error e => postBindFailure document e 0 0
        | .ok text =>
            if text = [] then
              postBindFailure document "Failed to extract text from document" 0 0
            else
              let chunks := chunk_by_difficulty ⟨500, 50⟩ w.sects
                (document.difficulty.getD "intermediate") document.title
              let texts := chunks.map Chunk.content
              -- `generate_embeddings_batch` makes no provider call on an
              -- empty input (`range(0, 0)`), and cannot fail there
              match (if texts.isEmpty then Except.ok [] else w.embed texts) with
              | .error e => postBindFailure document e (if texts.isEmpty then 0 else 1) 0
              | .ok embs =>
                  let calls := if texts.isEmpty then 0 else 1
                  -- `zip(chunks, embeddings)` assigns only the first
                  -- `min` positions; a chunk left without the key makes
                  -- the storage loop raise `KeyError: 'embedding'`
                  if embs.length < chunks.length then
                    postBindFailure document "KeyError: embedding" calls 0
                  else
                    { result := Except.ok chunks.length
                      status_updates := [⟨"processing", none⟩,
                        ⟨"ready", some { document.metadata with
                          chunk_count := some chunks.length
                          processed_at := some "now()" }⟩]
                      embed_calls := calls
                      stored_chunks := chunks.length }

/-! ### Concrete instances used by counterexamples and witnesses -/

/-- Stored chunk with a one-dimensional embedding. -/
noncomputable def sampleChunk1 : StoredChunk :=
  { chunk_id := "c1", content := "x", embedding := RawEmb.vec [1] }

/-- Stored chunk whose embedding value is absent. -/
def nullChunk : StoredChunk :=
  { chunk_id := "n0", content := "z", embedding := RawEmb.null }

/-- Input chunk carrying a (non-empty) embedding. -/
noncomputable def goodChunk : InputChunk :=
  { content := "g", embedding := some [1], chunk_index := none,
    chunk_type := none, metadata := [] }

/-- Input chunk without the `'embedding'` key. -/
def badChunk : InputChunk :=
  { content := "b", embedding := none, chunk_index := none,
    chunk_type := none, metadata := [] }

/-- Input chunk whose `'embedding'` key holds the empty list. -/
def emptyEmbChunk : InputChunk :=
  { content := "e", embedding := some [], chunk_index := none,
    chunk_type := none, metadata := [] }

/-- Empty document metadata (no recorded chunk count). -/
def emptyDocMeta : DocMeta :=
  { chunk_count := none, error := none, processed_at := none }

/-- A document already marked `ready`, with no `chunk_count` in metadata. -/
def readyDoc : DocRecord :=
  { title := "T", file_url := "u", file_type := none, difficulty := none,
    status := "ready", metadata := emptyDocMeta }

/-- A pending document. -/
def pendingDoc : DocRecord :=
  { title := "T", file_url := "u", file_type := none, difficulty := none,
    status := "pending", metadata := emptyDocMeta }

/-- World for the idempotency path: `readyDoc` with one stored chunk. -/
def readyWorld : ProcWorld :=
  { fetched := Except.ok (some readyDoc), existing_chunks := 1
    extracted := Except.error "unused", sects := []
    embed := fun _ => Except.error "unused" }

/-- World in which text extraction raises. -/
def extractFailWorld : ProcWorld :=
  { fetched := Except.ok (some pendingDoc), existing_chunks := 0
    extracted := Except.error "boom", sects := []
    embed := fun _ => Except.error "unused" }

/-- World in which the embedding-provider batch call raises. -/
def embedFailWorld : ProcWorld :=
  { fetched := Except.ok (some pendingDoc), existing_chunks := 0
    extracted := Except.ok "hello".data, sects := ["hello".data]
    embed := fun _ => Except.error "rate limited" }

/-- World in which the initial document fetch raises. -/
def fetchFailWorld : ProcWorld :=
  { fetched := Except.error "db down", existing_chunks := 0
    extracted := Except.error "unused", sects := []
    embed := fun _ => Except.error "unused" }

/-! ## Helper lemmas -/

theorem length_dropWhile_le (p : α → Bool) (l : List α) :
    (l.dropWhile p).length ≤ l.length :=
  (List.dropWhile_sublist p (l := l)).length_le

theorem pyStrip_length_le (s : List Char) : (pyStrip s).length ≤ s.length := by
  unfold pyStrip
  calc ((s.dropWhile Char.isWhitespace).reverse.dropWhile Char.isWhitespace).reverse.length
      = ((s.dropWhile Char.isWhitespace).reverse.dropWhile Char.isWhitespace).length :=
        List.length_reverse _
    _ ≤ (s.dropWhile Char.isWhitespace).reverse.length := length_dropWhile_le _ _
    _ = (s.dropWhile Char.isWhitespace).length := List.length_reverse _
    _ ≤ s.length := length_dropWhile_le _ _

theorem takeLast_length_le (n : Nat) (l : List α) : (takeLast n l).length ≤ n := by
  unfold takeLast
  rw [List.length_drop]
  omega

theorem takeLast_subset (n : Nat) (l : List α) : ∀ x ∈ takeLast n l, x ∈ l :=
  fun _ hx => List.drop_subset _ _ hx

theorem le_foldr_max (f : α → Nat) :
    ∀ (l : List α), ∀ x ∈ l, f x ≤ (l.map f).foldr max 0 := by
  intro l
  induction l with
  | nil => intro x hx; cases hx
  | cons a t ih =>
      intro x hx
      rcases List.mem_cons.mp hx with h | h
      · subst h; exact le_max_left _ _
      · exact le_trans (ih x h) (le_max_right _ _)

theorem joinWords_cons_cons (u v : List Char) (t : List (List Char)) :
    joinWords (u :: v :: t) = u ++ ' ' :: joinWords (v :: t) := rfl

theorem joinWords_append_single :
    ∀ (ws : List (List Char)) (w : List Char), ws ≠ [] →
      joinWords (ws ++ [w]) = joinWords ws ++ ' ' :: w := by
  intro ws
  induction ws with
  | nil => intro w h; cases h rfl
  | cons u rest ih =>
      intro w _
      cases rest with
      | nil => simp [joinWords]
      | cons v t =>
          have : (u :: v :: t) ++ [w] = u :: ((v :: t) ++ [w]) := rfl
          rw [this, List.cons_append, joinWords_cons_cons,
            ← List.cons_append, ih w (by simp), joinWords_cons_cons,
            List.append_assoc]
          rfl

theorem joinWords_length_le (W : Nat) :
    ∀ (ws : List (List Char)), (∀ u ∈ ws, u.length ≤ W) →
      (joinWords ws).length ≤ ws.length * (W + 1) := by
  intro ws
  induction ws with
  | nil => intro _; simp [joinWords]
  | cons u rest ih =>
      intro h
      have hu : u.length ≤ W := h u (List.mem_cons_self _ _)
      cases rest with
      | nil => simp [joinWords]; omega
      | cons v t =>
          have hrest := ih (fun x hx => h x (List.mem_cons_of_mem _ hx))
          rw [joinWords_cons_cons]
          simp only [List.length_append, List.length_cons] at *
          have hexp : (t.length + 1 + 1) * (W + 1) = (t.length + 1) * (W + 1) + (W + 1) := by
            ring
          omega

theorem forall₂_map_self (R : α → β → Prop) (f : α → β) :
    ∀ (l : List α), (∀ a ∈ l, R a (f a)) → List.Forall₂ R l (l.map f) := by
  intro l
  induction l with
  | nil => intro _; exact List.Forall₂.nil
  | cons a t ih =>
      intro h
      exact List.Forall₂.cons (h a (List.mem_cons_self _ _))
        (ih fun x hx => h x (List.mem_cons_of_mem _ hx))

/-! ## Loop invariants of the chunker -/

/-- Invariant of the `chunk_by_concept` accumulation loop: when every
stripped section is at most `L` long, every emitted chunk and the running
buffer stay within `overlap + 2 + max chunk_size L` characters. -/
theorem conceptLoop_bound (cfg : ChunkerConfig) (concept : String) (L : Nat) :
    ∀ (secs : List (List Char)),
      (∀ s ∈ secs, (pyStrip s).length ≤ L) →
      ∀ st : ConceptState,
        (∀ c ∈ st.chunks,
          c.content.length ≤ cfg.chunk_overlap + 2 + max cfg.chunk_size L) →
        st.current.length ≤ cfg.chunk_overlap + 2 + max cfg.chunk_size L →
        (∀ c ∈ (secs.foldl (conceptStep cfg concept) st).chunks,
          c.content.length ≤ cfg.chunk_overlap + 2 + max cfg.chunk_size L) ∧
        (secs.foldl (conceptStep cfg concept) st).current.length ≤
          cfg.chunk_overlap + 2 + max cfg.chunk_size L := by
  intro secs
  induction secs with
  | nil => intro _ st h1 h2; exact ⟨h1, h2⟩
  | cons sec rest ih =>
      intro hsec st h1 h2
      have hs0 : (pyStrip sec).length ≤ L := hsec sec (List.mem_cons_self _ _)
      have hrest : ∀ s ∈ rest, (pyStrip s).length ≤ L :=
        fun s hs => hsec s (List.mem_cons_of_mem _ hs)
      rw [List.foldl_cons]
      have hmaxL : L ≤ max cfg.chunk_size L := le_max_right _ _
      have hmaxS : cfg.chunk_size ≤ max cfg.chunk_size L := le_max_left _ _
      refine ih hrest _ ?_ ?_
      · -- chunks of the stepped state stay bounded
        intro c hc
        unfold conceptStep at hc
        by_cases hE : pyStrip sec = []
        · rw [if_pos hE] at hc; exact h1 c hc
        · rw [if_neg hE] at hc
          by_cases hT : st.current ≠ [] ∧
              cfg.chunk_size < st.current.length + (pyStrip sec).length
          · rw [if_pos hT] at hc
            simp only [List.mem_append, List.mem_singleton] at hc
            rcases hc with hc | hc
            · exact h1 c hc
            · subst hc
              exact le_trans (pyStrip_length_le _) h2
          · rw [if_neg hT] at hc; exact h1 c hc
      · -- the new buffer stays bounded
        unfold conceptStep
        by_cases hE : pyStrip sec = []
        · rw [if_pos hE]; exact h2
        · rw [if_neg hE]
          by_cases hT : st.current ≠ [] ∧
              cfg.chunk_size < st.current.length + (pyStrip sec).length
          · rw [if_pos hT]
            dsimp only
            by_cases hO : 0 < cfg.chunk_overlap
            · rw [if_pos hO]
              simp only [List.length_append]
              have h3 := takeLast_length_le cfg.chunk_overlap st.current
              have h4 : nl2.length = 2 := rfl
              omega
            · rw [if_neg hO]
              omega
          · rw [if_neg hT]
            dsimp only
            by_cases hN : st.current = []
            · rw [if_pos hN]
              omega
            · rw [if_neg hN]
              have h5 : st.current.length + (pyStrip sec).length ≤ cfg.chunk_size := by
                rcases not_and_or.mp hT with h | h
                · exact absurd hN h
                · omega
              simp only [List.length_append]
              have h4 : nl2.length = 2 := rfl
              omega

/-- Invariant of the `chunk_simple` word-packing loop: with `W` a bound on
every word length and
`M = max chunk_size ((overlapWordCount overlap + 1) * (W + 1))`, every
emitted chunk is at most `M` long, the tracked `current_length` is an upper
bound on the joined buffer, and it stays at most `M`. -/
theorem simpleLoop_bound (cfg : ChunkerConfig) (concept : String) (W : Nat) :
    ∀ (ws : List (List Char)),
      (∀ u ∈ ws, u.length ≤ W) →
      ∀ st : SimpleState,
        (∀ c ∈ st.chunks, c.content.length ≤
          max cfg.chunk_size ((overlapWordCount cfg.chunk_overlap + 1) * (W + 1))) →
        (∀ u ∈ st.current, u.length ≤ W) →
        (joinWords st.current).length ≤ st.len →
        (st.current = [] → st.len = 0) →
        st.len ≤ max cfg.chunk_size ((overlapWordCount cfg.chunk_overlap + 1) * (W + 1)) →
        (∀ c ∈ (ws.foldl (simpleStep cfg concept) st).chunks, c.content.length ≤
          max cfg.chunk_size ((overlapWordCount cfg.chunk_overlap + 1) * (W + 1))) ∧
        (joinWords (ws.foldl (simpleStep cfg concept) st).current).length ≤
          (ws.foldl (simpleStep cfg concept) st).len ∧
        (ws.foldl (simpleStep cfg concept) st).len ≤
          max cfg.chunk_size ((overlapWordCount cfg.chunk_overlap + 1) * (W + 1)) := by
  intro ws
  induction ws with
  | nil => intro _ st h1 h2 h3 h4 h5; exact ⟨h1, h3, h5⟩
  | cons w rest ih =>
      intro hws st h1 h2 h3 h4 h5
      have hw : w.length ≤ W := hws w (List.mem_cons_self _ _)
      have hrest : ∀ u ∈ rest, u.length ≤ W :=
        fun u hu => hws u (List.mem_cons_of_mem _ hu)
      rw [List.foldl_cons]
      have hWM : W + 1 ≤ max cfg.chunk_size ((overlapWordCount cfg.chunk_overlap + 1) * (W + 1)) := by
        have h' : W + 1 ≤ (overlapWordCount cfg.chunk_overlap + 1) * (W + 1) :=
          Nat.le_mul_of_pos_left (W + 1) (by omega)
        exact le_trans h' (le_max_right _ _)
      unfold simpleStep
      by_cases hT : cfg.chunk_size < st.len + (w.length + 1) ∧ st.current ≠ []
      · rw [if_pos hT]
        by_cases hO : 0 < cfg.chunk_overlap
        · rw [if_pos hO]
          refine ih hrest _ ?_ ?_ ?_ ?_ ?_
          · intro c hc
            simp only [List.mem_append, List.mem_singleton] at hc
            rcases hc with hc | hc
            · exact h1 c hc
            · subst hc; exact le_trans h3 h5
          · intro u hu
            simp only [List.mem_append, List.mem_singleton] at hu
            rcases hu with hu | hu
            · exact h2 u (takeLast_subset _ _ u hu)
            · subst hu; exact hw
          · exact le_refl _
          · intro hnil; simp at hnil
          · -- the reseeded buffer length is bounded by (k+1)*(W+1)
            have hwords : ∀ u ∈ takeLast (overlapWordCount cfg.chunk_overlap) st.current ++ [w],
                u.length ≤ W := by
              intro u hu
              simp only [List.mem_append, List.mem_singleton] at hu
              rcases hu with hu | hu
              · exact h2 u (takeLast_subset _ _ u hu)
              · subst hu; exact hw
            have hlen : (takeLast (overlapWordCount cfg.chunk_overlap) st.current ++ [w]).length ≤
                overlapWordCount cfg.chunk_overlap + 1 := by
              simp only [List.length_append, List.length_singleton]
              have := takeLast_length_le (overlapWordCount cfg.chunk_overlap) st.current
              omega
            have hjb := joinWords_length_le W _ hwords
            have hmul := Nat.mul_le_mul_right (W + 1) hlen
            exact le_trans (le_trans hjb hmul) (le_max_right _ _)
        · rw [if_neg hO]
          refine ih hrest _ ?_ ?_ ?_ ?_ ?_
          · intro c hc
            simp only [List.mem_append, List.mem_singleton] at hc
            rcases hc with hc | hc
            · exact h1 c hc
            · subst hc; exact le_trans h3 h5
          · intro u hu
            simp only [List.mem_singleton] at hu
            subst hu; exact hw
          · show (joinWords [w]).length ≤ w.length + 1
            simp [joinWords]
          · intro hnil; simp at hnil
          · exact le_trans (by omega : w.length + 1 ≤ W + 1) hWM
      · rw [if_neg hT]
        refine ih hrest _ h1 ?_ ?_ ?_ ?_
        · intro u hu
          simp only [List.mem_append, List.mem_singleton] at hu
          rcases hu with hu | hu
          · exact h2 u hu
          · subst hu; exact hw
        · -- joined buffer still below the tracked length
          dsimp only
          by_cases hN : st.current = []
          · rw [hN]
            simp only [List.nil_append, joinWords]
            omega
          · rw [joinWords_append_single st.current w hN]
            simp only [List.length_append, List.length_cons]
            omega
        · intro hnil; simp at hnil
        · -- tracked length still bounded
          dsimp only
          by_cases hN : st.current = []
          · have h0 : st.len = 0 := h4 hN
            omega
          · have h6 : st.len + (w.length + 1) ≤ cfg.chunk_size := by
              rcases not_and_or.mp hT with h | h
              · omega
              · exact absurd hN h
            exact le_trans h6 (le_max_left _ _)

/-! ## Claim C1 -/

/-- C1, counterexample: with `max_size = 10`, `overlap = 5 < max_size` and
boundary-segments `"aaaa"` and `"bbbbbb"` (the regex split of the text
`"aaaa\n\nbbbbbb"`), `chunk_by_concept` emits a single chunk of length
`12 > max_size`, although both segments are at most `max_size` long: the
buffer-overflow test `len(current) + len(section) > max_size` ignores the
two joiner characters, so the claimed bound `≤ max_size` fails without any
oversized-segment passthrough. -/
theorem chunk_length_bound_cex :
    (chunk_by_concept ⟨10, 5⟩ ["aaaa".data, "bbbbbb".data] "c").map
        (fun c => c.content.length) = [12]
    ∧ 10 < 12 ∧ "aaaa".data.length ≤ 10 ∧ "bbbbbb".data.length ≤ 10
    ∧ (5 : Nat) < 10 := by
  decide

/-- C1, amended: every chunk emitted by `chunk_by_concept` has content
length at most `overlap + 2 + max max_size L`, where `L` is the length of
the longest stripped boundary-segment (so at most `max_size + overlap + 2`
unless some single segment itself exceeds `max_size`); every chunk emitted
by `chunk_simple` has content length at most
`max max_size ((⌈overlap/10⌉ + 1) * (W + 1))`, where `W` is the length of
the longest whitespace-delimited word. -/
theorem chunk_length_bound :
    (∀ (cfg : ChunkerConfig) (sections : List (List Char)) (concept : String),
      ∀ c ∈ chunk_by_concept cfg sections concept,
        c.content.length ≤ cfg.chunk_overlap + 2 + max cfg.chunk_size (maxSectionLen sections))
    ∧ (∀ (cfg : ChunkerConfig) (text : List Char) (concept : String),
      ∀ c ∈ chunk_simple cfg text concept,
        c.content.length ≤ max cfg.chunk_size
          ((overlapWordCount cfg.chunk_overlap + 1) * (maxWordLen text + 1))) := by
  constructor
  · intro cfg sections concept c hc
    have hsec : ∀ s ∈ sections, (pyStrip s).length ≤ maxSectionLen sections :=
      fun s hs => le_foldr_max (fun s => (pyStrip s).length) sections s hs
    have key := conceptLoop_bound cfg concept (maxSectionLen sections) sections hsec
      ⟨[], [], 0⟩ (fun c hc => absurd hc (List.not_mem_nil c)) (Nat.zero_le _)
    simp only [chunk_by_concept] at hc
    by_cases hN : (sections.foldl (conceptStep cfg concept) ⟨[], [], 0⟩).current = []
    · rw [if_pos hN] at hc
      exact key.1 c hc
    · rw [if_neg hN] at hc
      simp only [List.mem_append, List.mem_singleton] at hc
      rcases hc with hc | hc
      · exact key.1 c hc
      · subst hc
        exact le_trans (pyStrip_length_le _) key.2
  · intro cfg text concept c hc
    have hws : ∀ u ∈ pyWords text, u.length ≤ maxWordLen text :=
      fun u hu => le_foldr_max List.length (pyWords text) u hu
    have key := simpleLoop_bound cfg concept (maxWordLen text) (pyWords text) hws
      ⟨[], [], 0, 0⟩ (fun c hc => absurd hc (List.not_mem_nil c))
      (fun u hu => absurd hu (List.not_mem_nil u)) (Nat.zero_le _)
      (fun _ => rfl) (Nat.zero_le _)
    simp only [chunk_simple] at hc
    by_cases hN : ((pyWords text).foldl (simpleStep cfg concept) ⟨[], [], 0, 0⟩).current = []
    · rw [if_pos hN] at hc
      exact key.1 c hc
    · rw [if_neg hN] at hc
      simp only [List.mem_append, List.mem_singleton] at hc
      rcases hc with hc | hc
      · exact key.1 c hc
      · subst hc
        exact le_trans key.2.1 key.2.2

/-- C1, witness: the amended bound evaluated on the counterexample run
(`12 ≤ 5 + 2 + max 10 6`) and on a `chunk_simple` run whose middle chunk is
an overlap-reseeded buffer of length `31 ≤ max 20 32`. -/
theorem chunk_length_bound_witness :
    ({ content := "aaaa\n\nbbbbbb".data, concept_name := "c", chunk_index := 0,
       chunk_type := "concept", metadata := [] } : Chunk).content.length
      ≤ 5 + 2 + max 10 (maxSectionLen ["aaaa".data, "bbbbbb".data])
    ∧ ({ content := "aaaaaaaaaaaaaaa bbbbbbbbbbbbbbb".data, concept_name := "k",
         chunk_index := 1, chunk_type := "simple", metadata := [] } : Chunk).content.length
      ≤ max 20 ((overlapWordCount 10 + 1) *
          (maxWordLen "aaaaaaaaaaaaaaa bbbbbbbbbbbbbbb c".data + 1)) :=
  ⟨chunk_length_bound.1 ⟨10, 5⟩ ["aaaa".data, "bbbbbb".data] "c" _ (by decide),
   chunk_length_bound.2 ⟨20, 10⟩ "aaaaaaaaaaaaaaa bbbbbbbbbbbbbbb c".data "k" _ (by decide)⟩

/-! ## Claim C10 -/

/-- C10: `chunk_by_difficulty text difficulty concept` returns exactly the
chunks of `chunk_by_concept text concept`, pointwise unchanged in content,
concept name, index and type, with `metadata['difficulty'] = difficulty`
added to each chunk's metadata map. -/
theorem chunk_by_difficulty_refinement :
    ∀ (cfg : ChunkerConfig) (sections : List (List Char)) (difficulty concept : String),
      List.Forall₂ (fun c d =>
          d.content = c.content ∧ d.concept_name = c.concept_name ∧
          d.chunk_index = c.chunk_index ∧ d.chunk_type = c.chunk_type ∧
          d.metadata = setMeta c.metadata "difficulty" difficulty)
        (chunk_by_concept cfg sections concept)
        (chunk_by_difficulty cfg sections difficulty concept) := by
  intro cfg sections difficulty concept
  unfold chunk_by_difficulty
  exact forall₂_map_self _ _ _ (fun a _ => ⟨rfl, rfl, rfl, rfl, rfl⟩)

/-! ## Cosine similarity: algebraic lemmas -/

theorem sumSq_nil : sumSq [] = 0 := rfl

theorem sumSq_cons (a : ℝ) (t : List ℝ) : sumSq (a :: t) = a * a + sumSq t := by
  simp [sumSq]

theorem sumSq_nonneg (v : List ℝ) : 0 ≤ sumSq v := by
  induction v with
  | nil => rw [sumSq_nil]
  | cons a t ih =>
      rw [sumSq_cons]
      nlinarith [mul_self_nonneg a]

theorem dotProduct_cons (a b : ℝ) (t1 t2 : List ℝ) :
    dotProduct (a :: t1) (b :: t2) = a * b + dotProduct t1 t2 := by
  simp [dotProduct]

theorem dotProduct_self (v : List ℝ) : dotProduct v v = sumSq v := by
  induction v with
  | nil => rfl
  | cons a t ih => rw [dotProduct_cons, sumSq_cons, ih]

/-- Cauchy-Schwarz for the zip-truncating dot product: it holds for vectors
of any (possibly different) lengths, since the truncated sum is bounded by
the full magnitudes. -/
theorem dotProduct_sq_le : ∀ (v1 v2 : List ℝ),
    (dotProduct v1 v2) ^ 2 ≤ sumSq v1 * sumSq v2 := by
  intro v1
  induction v1 with
  | nil =>
      intro v2
      have h2 := sumSq_nonneg v2
      simp only [dotProduct, List.zip_nil_left, List.map_nil, List.sum_nil, sumSq_nil]
      nlinarith
  | cons a t1 ih =>
      intro v2
      cases v2 with
      | nil =>
          have h1 := sumSq_nonneg (a :: t1)
          simp only [dotProduct, List.zip_nil_right, List.map_nil, List.sum_nil, sumSq_nil]
          nlinarith
      | cons b t2 =>
          have h := ih t2
          have hS1 := sumSq_nonneg t1
          have hS2 := sumSq_nonneg t2
          rw [dotProduct_cons, sumSq_cons, sumSq_cons]
          by_cases hz : sumSq t1 = 0
          · have hd2 : dotProduct t1 t2 ^ 2 ≤ 0 := by
              rw [hz] at h
              nlinarith
            have hd : dotProduct t1 t2 = 0 :=
              pow_eq_zero_iff (n := 2) (by norm_num) |>.mp
                (le_antisymm hd2 (sq_nonneg _))
            rw [hz, hd]
            nlinarith [mul_nonneg (mul_self_nonneg a) hS2]
          · have hpos : 0 < sumSq t1 := lt_of_le_of_ne hS1 (Ne.symm hz)
            nlinarith [sq_nonneg (a * dotProduct t1 t2 - b * sumSq t1),
              mul_nonneg (add_nonneg hS1 (mul_self_nonneg a)) (sub_nonneg.mpr h)]

theorem magnitude_nonneg (v : List ℝ) : 0 ≤ magnitude v := Real.sqrt_nonneg _

theorem abs_dotProduct_le (v1 v2 : List ℝ) :
    |dotProduct v1 v2| ≤ magnitude v1 * magnitude v2 := by
  unfold magnitude
  rw [← Real.sqrt_mul (sumSq_nonneg v1)]
  calc |dotProduct v1 v2| = Real.sqrt ((dotProduct v1 v2) ^ 2) :=
        (Real.sqrt_sq_eq_abs _).symm
    _ ≤ Real.sqrt (sumSq v1 * sumSq v2) := Real.sqrt_le_sqrt (dotProduct_sq_le v1 v2)

/-! ## Claim C5 -/

/-- C5: cosine similarity lies in `[-1, 1]` for same-dimension vectors; it
equals `1` on any non-zero vector paired with itself; and it is exactly `0`
whenever either magnitude is zero. -/
theorem cosine_similarity_spec :
    (∀ a b : List ℝ, a.length = b.length →
      -1 ≤ cosine_similarity a b ∧ cosine_similarity a b ≤ 1)
    ∧ (∀ a : List ℝ, (∃ x ∈ a, x ≠ 0) → cosine_similarity a a = 1)
    ∧ (∀ a b : List ℝ, magnitude a = 0 ∨ magnitude b = 0 →
        cosine_similarity a b = 0) := by
  refine ⟨?_, ?_, ?_⟩
  · intro a b _
    unfold cosine_similarity
    by_cases hz : magnitude a = 0 ∨ magnitude b = 0
    · rw [if_pos hz]; norm_num
    · rw [if_neg hz]
      push_neg at hz
      have ha : 0 < magnitude a := lt_of_le_of_ne (magnitude_nonneg a) (Ne.symm hz.1)
      have hb : 0 < magnitude b := lt_of_le_of_ne (magnitude_nonneg b) (Ne.symm hz.2)
      have hpos : 0 < magnitude a * magnitude b := mul_pos ha hb
      have habs := abs_le.mp (abs_dotProduct_le a b)
      constructor
      · rw [le_div_iff₀ hpos]
        nlinarith [habs.1]
      · rw [div_le_one hpos]
        exact habs.2
  · rintro a ⟨x, hx, hx0⟩
    have hnn : ∀ y ∈ a.map (fun z => z * z), 0 ≤ y := by
      intro y hy
      obtain ⟨z, _, rfl⟩ := List.mem_map.mp hy
      exact mul_self_nonneg z
    have hle : x * x ≤ sumSq a :=
      List.single_le_sum hnn (x * x) (List.mem_map_of_mem _ hx)
    have hpos : 0 < sumSq a := lt_of_lt_of_le (mul_self_pos.mpr hx0) hle
    have hmag : magnitude a ≠ 0 :=
      ne_of_gt (Real.sqrt_pos.mpr hpos)
    unfold cosine_similarity
    rw [if_neg (by tauto)]
    rw [dotProduct_self]
    unfold magnitude
    rw [Real.mul_self_sqrt (le_of_lt hpos)]
    exact div_self (ne_of_gt hpos)
  · intro a b hz
    unfold cosine_similarity
    rw [if_pos hz]

/-- C5, witness: the three parts evaluated at `[1]`, `[1]` and `[]`. -/
theorem cosine_similarity_spec_witness :
    (-1 ≤ cosine_similarity [1] [1] ∧ cosine_similarity [1] [1] ≤ 1)
    ∧ cosine_similarity [1] [1] = 1
    ∧ cosine_similarity [] [1] = 0 :=
  ⟨cosine_similarity_spec.1 [1] [1] rfl,
   cosine_similarity_spec.2.1 [1] ⟨1, by simp, one_ne_zero⟩,
   cosine_similarity_spec.2.2 [] [1]
     (Or.inl (by simp [magnitude, sumSq]))⟩

/-! ## Fallback search: ranking lemmas -/

theorem scoreChunk_some_threshold {query : List ℝ} {th : ℝ} {c : StoredChunk}
    {r : StoredChunk × ℝ} (h : scoreChunk query th c = some r) : th ≤ r.2 := by
  unfold scoreChunk at h
  cases hp : parseStoredEmbedding c.embedding with
  | none => rw [hp] at h; cases h
  | some emb =>
      rw [hp] at h
      dsimp only at h
      by_cases ht : th ≤ cosine_similarity query emb
      · rw [if_pos ht] at h
        cases h
        exact ht
      · rw [if_neg ht] at h; cases h

theorem scoreChunk_some_fst {query : List ℝ} {th : ℝ} {c : StoredChunk}
    {r : StoredChunk × ℝ} (h : scoreChunk query th c = some r) : r.1 = c := by
  unfold scoreChunk at h
  cases hp : parseStoredEmbedding c.embedding with
  | none => rw [hp] at h; cases h
  | some emb =>
      rw [hp] at h
      dsimp only at h
      by_cases ht : th ≤ cosine_similarity query emb
      · rw [if_pos ht] at h
        cases h
        rfl
      · rw [if_neg ht] at h; cases h

theorem fallbackRank_pairwise (q : List ℝ) (lim : Nat) (th : ℝ)
    (chunks : List StoredChunk) :
    (fallbackRank q lim th chunks).Pairwise (fun a b => b.2 ≤ a.2) := by
  unfold fallbackRank
  apply List.Pairwise.sublist (List.take_sublist _ _)
  have hs := @List.sorted_mergeSort (StoredChunk × ℝ)
    (fun a b => decide (b.2 ≤ a.2))
    (by
      intro a b c hab hbc
      simp only [decide_eq_true_eq] at *
      exact le_trans hbc hab)
    (by
      intro a b
      simp only [Bool.or_eq_true, decide_eq_true_eq]
      exact le_total b.2 a.2)
    (chunks.filterMap (scoreChunk q th))
  exact hs.imp (fun h => of_decide_eq_true h)

theorem fallbackRank_mem_threshold (q : List ℝ) (lim : Nat) (th : ℝ)
    (chunks : List StoredChunk) :
    ∀ r ∈ fallbackRank q lim th chunks, th ≤ r.2 := by
  intro r hr
  unfold fallbackRank at hr
  have h1 := List.mem_of_mem_take hr
  rw [List.mem_mergeSort] at h1
  obtain ⟨c, _, hc⟩ := List.mem_filterMap.mp h1
  exact scoreChunk_some_threshold hc

theorem fallbackRank_length_le (q : List ℝ) (lim : Nat) (th : ℝ)
    (chunks : List StoredChunk) :
    (fallbackRank q lim th chunks).length ≤ lim :=
  List.length_take_le _ _

theorem fallback_scan_pairwise (fetch : Except String (List StoredChunk))
    (q : List ℝ) (lim : Nat) (th : ℝ) :
    (fallback_scan fetch q lim th).Pairwise (fun a b => b.2 ≤ a.2) := by
  cases fetch with
  | error e => exact List.Pairwise.nil
  | ok chunks =>
      show (if chunks.isEmpty then [] else fallbackRank q lim th chunks).Pairwise _
      by_cases h : chunks.isEmpty
      · rw [if_pos h]; exact List.Pairwise.nil
      · rw [if_neg h]; exact fallbackRank_pairwise q lim th chunks

theorem fallback_scan_mem_threshold (fetch : Except String (List StoredChunk))
    (q : List ℝ) (lim : Nat) (th : ℝ) :
    ∀ r ∈ fallback_scan fetch q lim th, th ≤ r.2 := by
  intro r hr
  cases fetch with
  | error e => cases hr
  | ok chunks =>
      have hr' : r ∈ (if chunks.isEmpty then [] else fallbackRank q lim th chunks) := hr
      by_cases h : chunks.isEmpty
      · rw [if_pos h] at hr'; cases hr'
      · rw [if_neg h] at hr'
        exact fallbackRank_mem_threshold q lim th chunks r hr'

theorem fallback_scan_length_le (fetch : Except String (List StoredChunk))
    (q : List ℝ) (lim : Nat) (th : ℝ) :
    (fallback_scan fetch q lim th).length ≤ lim := by
  cases fetch with
  | error e => exact Nat.zero_le _
  | ok chunks =>
      show (if chunks.isEmpty then [] else fallbackRank q lim th chunks).length ≤ lim
      by_cases h : chunks.isEmpty
      · rw [if_pos h]; exact Nat.zero_le _
      · rw [if_neg h]; exact fallbackRank_length_le q lim th chunks

/-! ## Fallback search: concrete evaluations -/

theorem cosine_one_one : cosine_similarity [(1 : ℝ)] [1] = 1 := by
  have h : sumSq [(1 : ℝ)] = 1 := by simp [sumSq]
  unfold cosine_similarity magnitude
  rw [h, Real.sqrt_one]
  rw [if_neg (by norm_num)]
  simp [dotProduct]

theorem cosine_mismatch_one : cosine_similarity [(1 : ℝ), 0] [1] = 1 := by
  have h1 : sumSq [(1 : ℝ), 0] = 1 := by simp [sumSq]
  have h2 : sumSq [(1 : ℝ)] = 1 := by simp [sumSq]
  unfold cosine_similarity magnitude
  rw [h1, h2, Real.sqrt_one]
  rw [if_neg (by norm_num)]
  simp [dotProduct]

theorem scoreChunk_eval_one : scoreChunk [1] 0 sampleChunk1 = some (sampleChunk1, 1) := by
  unfold scoreChunk
  rw [show parseStoredEmbedding sampleChunk1.embedding = some [1] from rfl]
  dsimp only
  rw [cosine_one_one, if_pos (by norm_num)]

theorem scoreChunk_eval_mismatch :
    scoreChunk [1, 0] (7 / 10) sampleChunk1 = some (sampleChunk1, 1) := by
  unfold scoreChunk
  rw [show parseStoredEmbedding sampleChunk1.embedding = some [1] from rfl]
  dsimp only
  rw [cosine_mismatch_one, if_pos (by norm_num)]

theorem fallback_scan_eval_one :
    fallback_scan (Except.ok [sampleChunk1]) [1] 5 0 = [(sampleChunk1, 1)] := by
  show (if ([sampleChunk1] : List StoredChunk).isEmpty then []
      else fallbackRank [1] 5 0 [sampleChunk1]) = _
  rw [if_neg (by simp)]
  unfold fallbackRank
  rw [show ([sampleChunk1] : List StoredChunk).filterMap (scoreChunk [1] 0) =
      [(sampleChunk1, 1)] from by simp [List.filterMap_cons, scoreChunk_eval_one]]
  simp

theorem fallback_scan_eval_mismatch :
    fallback_scan (Except.ok [sampleChunk1]) [1, 0] 5 (7 / 10) = [(sampleChunk1, 1)] := by
  show (if ([sampleChunk1] : List StoredChunk).isEmpty then []
      else fallbackRank [1, 0] 5 (7 / 10) [sampleChunk1]) = _
  rw [if_neg (by simp)]
  unfold fallbackRank
  rw [show ([sampleChunk1] : List StoredChunk).filterMap (scoreChunk [1, 0] (7 / 10)) =
      [(sampleChunk1, 1)] from by simp [List.filterMap_cons, scoreChunk_eval_mismatch]]
  simp

/-! ## Claim C2 -/

/-- C2: results of the Tier-2 fallback of `similarity_search` are sorted by
similarity descending, every returned score clears the threshold, and at
most `k` entries are returned. -/
theorem similarity_search_ranking :
    ∀ (fetch : Except String (List StoredChunk)) (q : List ℝ) (lim : Nat) (th : ℝ),
      (fallback_scan fetch q lim th).Pairwise (fun a b => b.2 ≤ a.2)
      ∧ (∀ r ∈ fallback_scan fetch q lim th, th ≤ r.2)
      ∧ (fallback_scan fetch q lim th).length ≤ lim :=
  fun fetch q lim th =>
    ⟨fallback_scan_pairwise fetch q lim th,
     fallback_scan_mem_threshold fetch q lim th,
     fallback_scan_length_le fetch q lim th⟩

/-- C2, witness: on the store `[sampleChunk1]` with query `[1]`, threshold
`0` and limit `5`, the returned entry `(sampleChunk1, 1)` clears the
threshold and the result length is within the limit. -/
theorem similarity_search_ranking_witness :
    (0 : ℝ) ≤ (sampleChunk1, (1 : ℝ)).2
    ∧ (fallback_scan (Except.ok [sampleChunk1]) [1] 5 0).length ≤ 5 :=
  ⟨(similarity_search_ranking (Except.ok [sampleChunk1]) [1] 5 0).2.1
      (sampleChunk1, 1)
      (by rw [fallback_scan_eval_one]; exact List.mem_singleton_self _),
   (similarity_search_ranking (Except.ok [sampleChunk1]) [1] 5 0).2.2⟩

/-! ## Claim C3 -/

/-- C3: `similarity_search` never propagates an exception: every call
returns `Except.ok`; when the native RPC raised, the fallback result is
still returned (ranked and bounded); when the fallback fetch also failed,
the call returns the empty list. -/
theorem similarity_search_no_raise :
    (∀ (rpc : Except String (List (StoredChunk × ℝ)))
        (fetch : Except String (List StoredChunk)) (q : List ℝ) (lim : Nat) (th : ℝ),
      ∃ rows, similarity_search rpc fetch q lim th = Except.ok rows)
    ∧ (∀ (e : String) (fetch : Except String (List StoredChunk))
        (q : List ℝ) (lim : Nat) (th : ℝ),
      similarity_search (Except.error e) fetch q lim th =
        Except.ok (fallback_scan fetch q lim th)
      ∧ (fallback_scan fetch q lim th).Pairwise (fun a b => b.2 ≤ a.2)
      ∧ (fallback_scan fetch q lim th).length ≤ lim)
    ∧ (∀ (e f : String) (q : List ℝ) (lim : Nat) (th : ℝ),
      similarity_search (Except.error e) (Except.error f) q lim th = Except.ok []) :=
  ⟨fun _ _ _ _ _ => ⟨_, rfl⟩,
   fun _ fetch q lim th =>
     ⟨rfl, fallback_scan_pairwise fetch q lim th, fallback_scan_length_le fetch q lim th⟩,
   fun _ _ _ _ _ => rfl⟩

/-! ## Claim C4 -/

/-- C4, counterexample: when the native RPC succeeds but returns no rows
(`Except.ok []`), the code does not return that native result: the
`if result.data:` guard is falsy, so the Tier-2 fallback scan runs and here
returns a non-empty list. This refutes "when the native operator succeeds
the call returns its result directly" and "the fallback is executed only
when the native operator is unavailable or errors". -/
theorem similarity_search_tiering_cex :
    similarity_search (Except.ok []) (Except.ok [sampleChunk1]) [1] 5 0 =
      Except.ok [(sampleChunk1, 1)]
    ∧ ([(sampleChunk1, (1 : ℝ))] : List (StoredChunk × ℝ)) ≠ [] := by
  constructor
  · show Except.ok (if ([] : List (StoredChunk × ℝ)).isEmpty then
        fallback_scan (Except.ok [sampleChunk1]) [1] 5 0 else []) = _
    simp only [List.isEmpty_nil, if_true, fallback_scan_eval_one]
  · simp

/-- C4, amended: the native result is returned directly only when it is
non-empty; the fallback scan runs both when the native call errors and when
it succeeds with empty data ("no matching rows"). -/
theorem similarity_search_tiering :
    (∀ (rows : List (StoredChunk × ℝ)) (fetch : Except String (List StoredChunk))
        (q : List ℝ) (lim : Nat) (th : ℝ), rows ≠ [] →
      similarity_search (Except.ok rows) fetch q lim th = Except.ok rows)
    ∧ (∀ (fetch : Except String (List StoredChunk)) (q : List ℝ) (lim : Nat) (th : ℝ),
      similarity_search (Except.ok []) fetch q lim th =
        Except.ok (fallback_scan fetch q lim th))
    ∧ (∀ (e : String) (fetch : Except String (List StoredChunk))
        (q : List ℝ) (lim : Nat) (th : ℝ),
      similarity_search (Except.error e) fetch q lim th =
        Except.ok (fallback_scan fetch q lim th)) := by
  refine ⟨?_, ?_, ?_⟩
  · intro rows fetch q lim th hne
    cases rows with
    | nil => cases hne rfl
    | cons r rest => rfl
  · intro fetch q lim th; rfl
  · intro e fetch q lim th; rfl

/-- C4, witness: a non-empty native result is returned unchanged even when
the fallback fetch would fail. -/
theorem similarity_search_tiering_witness :
    similarity_search (Except.ok [(sampleChunk1, 1)]) (Except.error "store down")
      [1] 5 0 = Except.ok [(sampleChunk1, 1)] :=
  similarity_search_tiering.1 [(sampleChunk1, 1)] (Except.error "store down")
    [1] 5 0 (by simp)

/-! ## Claim C7 -/

/-- C7, counterexample: a stored chunk whose embedding has dimension 1 is
compared against a 2-dimensional query and is NOT skipped: `zip` silently
truncates, the chunk scores `1` and is returned. This refutes "every stored
chunk of different dimensionality than the query vector is detected and
skipped". -/
theorem similarity_search_skip_cex :
    fallback_scan (Except.ok [sampleChunk1]) [1, 0] 5 (7 / 10) = [(sampleChunk1, 1)]
    ∧ parseStoredEmbedding sampleChunk1.embedding = some [1]
    ∧ ([1] : List ℝ).length ≠ ([1, 0] : List ℝ).length :=
  ⟨fallback_scan_eval_mismatch, rfl, by simp⟩

/-- C7, amended: chunks whose raw embedding is malformed (absent, falsy,
unparseable, non-list, or non-numeric) are skipped — they contribute no
result entry — and the search never raises; but a well-formed embedding of
mismatched dimensionality is not detected: it is scored over the zipped
common prefix and enters the candidate set whenever its truncated score
clears the threshold. -/
theorem similarity_search_skip :
    (∀ (q : List ℝ) (lim : Nat) (th : ℝ) (chunks : List StoredChunk)
        (c : StoredChunk), parseStoredEmbedding c.embedding = none →
      ∀ s : ℝ, (c, s) ∉ fallback_scan (Except.ok chunks) q lim th)
    ∧ (∀ (q : List ℝ) (th : ℝ) (chunks : List StoredChunk)
        (c : StoredChunk) (emb : List ℝ), c ∈ chunks →
      parseStoredEmbedding c.embedding = some emb →
      th ≤ cosine_similarity q emb →
      (c, cosine_similarity q emb) ∈ chunks.filterMap (scoreChunk q th)) := by
  constructor
  · intro q lim th chunks c hnone s hmem
    have hmem' : (c, s) ∈ (if chunks.isEmpty then []
        else fallbackRank q lim th chunks) := hmem
    by_cases h : chunks.isEmpty
    · rw [if_pos h] at hmem'; cases hmem'
    · rw [if_neg h] at hmem'
      unfold fallbackRank at hmem'
      have h1 := List.mem_of_mem_take hmem'
      rw [List.mem_mergeSort] at h1
      obtain ⟨c', _, hc'⟩ := List.mem_filterMap.mp h1
      have hfst : c = c' := by
        simpa using scoreChunk_some_fst hc'
      subst hfst
      unfold scoreChunk at hc'
      rw [hnone] at hc'
      cases hc'
  · intro q th chunks c emb hmem hparse hth
    rw [List.mem_filterMap]
    refine ⟨c, hmem, ?_⟩
    unfold scoreChunk
    rw [hparse]
    dsimp only
    rw [if_pos hth]

/-- C7, witness: a chunk with an absent embedding contributes no entry,
while the dimension-mismatched chunk of the counterexample does enter the
candidate set. -/
theorem similarity_search_skip_witness :
    ((nullChunk, (0 : ℝ)) ∉ fallback_scan (Except.ok [nullChunk]) [1] 5 0)
    ∧ (sampleChunk1, cosine_similarity [1, 0] [1]) ∈
        ([sampleChunk1] : List StoredChunk).filterMap (scoreChunk [1, 0] (7 / 10)) :=
  ⟨similarity_search_skip.1 [1] 5 0 [nullChunk] nullChunk rfl 0,
   similarity_search_skip.2 [1, 0] (7 / 10) [sampleChunk1] sampleChunk1 [1]
     (List.mem_singleton_self _) rfl
     (by rw [cosine_mismatch_one]; norm_num)⟩

/-! ## Claim C6 -/

theorem storeChunksLoop_bad (g : Nat → String) (cid : String) :
    ∀ (pre : List InputChunk) (bad : InputChunk) (rest : List InputChunk)
      (i : Nat) (rows : List ChunkRow) (ids : List String),
      (∀ c ∈ pre, c.embedding.isSome) → bad.embedding = none →
      (storeChunksLoop g cid i rows ids (pre ++ bad :: rest)).2 =
        Except.error "Chunk must have embedding field before storing"
      ∧ (storeChunksLoop g cid i rows ids (pre ++ bad :: rest)).1.length =
        rows.length + pre.length := by
  intro pre
  induction pre with
  | nil =>
      intro bad rest i rows ids _ hbad
      rw [List.nil_append]
      unfold storeChunksLoop
      rw [hbad]
      exact ⟨rfl, by dsimp only; simp⟩
  | cons c pre' ih =>
      intro bad rest i rows ids hpre hbad
      have hc : c.embedding.isSome := hpre c (List.mem_cons_self _ _)
      obtain ⟨emb, hemb⟩ := Option.isSome_iff_exists.mp hc
      rw [List.cons_append]
      unfold storeChunksLoop
      rw [hemb]
      dsimp only
      have h := ih bad rest (i + 1)
        (rows ++ [toChunkRow (g i) cid c emb])
        (ids ++ [(toChunkRow (g i) cid c emb).chunk_id])
        (fun x hx => hpre x (List.mem_cons_of_mem _ hx)) hbad
      refine ⟨h.1, ?_⟩
      rw [h.2]
      simp only [List.length_append, List.length_cons, List.length_nil]
      omega

theorem storeChunksLoop_ok (g : Nat → String) (cid : String) :
    ∀ (chunks : List InputChunk) (i : Nat) (rows : List ChunkRow) (ids : List String),
      (∀ c ∈ chunks, c.embedding.isSome) →
      ∃ ids', (storeChunksLoop g cid i rows ids chunks).2 = Except.ok ids'
        ∧ (storeChunksLoop g cid i rows ids chunks).1.length =
          rows.length + chunks.length := by
  intro chunks
  induction chunks with
  | nil =>
      intro i rows ids _
      exact ⟨ids, rfl, by simp [storeChunksLoop]⟩
  | cons c rest ih =>
      intro i rows ids hall
      have hc : c.embedding.isSome := hall c (List.mem_cons_self _ _)
      obtain ⟨emb, hemb⟩ := Option.isSome_iff_exists.mp hc
      unfold storeChunksLoop
      rw [hemb]
      dsimp only
      obtain ⟨ids', h1, h2⟩ := ih (i + 1)
        (rows ++ [toChunkRow (g i) cid c emb])
        (ids ++ [(toChunkRow (g i) cid c emb).chunk_id])
        (fun x hx => hall x (List.mem_cons_of_mem _ hx))
      refine ⟨ids', h1, ?_⟩
      rw [h2]
      simp only [List.length_append, List.length_cons, List.length_nil]
      omega

/-- C6, counterexample: `store_chunks` raises at the first chunk without an
`'embedding'` key, but the chunk before it has already been inserted (one
stored row remains: partial storage, not "no chunk stored"); and a chunk
whose `'embedding'` key holds the empty list is not rejected at all — it is
stored and its id returned, although the claim requires a non-empty
embedding. -/
theorem store_chunks_validation_cex :
    (store_chunks (fun _ => "u") [goodChunk, badChunk] "cid").2 =
      Except.error "Chunk must have embedding field before storing"
    ∧ (store_chunks (fun _ => "u") [goodChunk, badChunk] "cid").1.length = 1
    ∧ badChunk.embedding = none
    ∧ (store_chunks (fun _ => "u") [emptyEmbChunk] "cid").2 = Except.ok ["u"]
    ∧ emptyEmbChunk.embedding = some [] :=
  ⟨rfl, rfl, rfl, rfl, rfl⟩

/-- C6, amended: `store_chunks` validates only the presence of the
`'embedding'` key, not non-emptiness. When every chunk carries the key
(even with an empty list) the call succeeds and stores every chunk; when
some chunk lacks the key, a `ValueError` is raised at that chunk but all
chunks preceding it have already been inserted. -/
theorem store_chunks_validation :
    (∀ (g : Nat → String) (cid : String) (pre : List InputChunk)
        (bad : InputChunk) (rest : List InputChunk),
      (∀ c ∈ pre, c.embedding.isSome) → bad.embedding = none →
      (store_chunks g (pre ++ bad :: rest) cid).2 =
        Except.error "Chunk must have embedding field before storing"
      ∧ (store_chunks g (pre ++ bad :: rest) cid).1.length = pre.length)
    ∧ (∀ (g : Nat → String) (cid : String) (chunks : List InputChunk),
      (∀ c ∈ chunks, c.embedding.isSome) →
      ∃ ids, (store_chunks g chunks cid).2 = Except.ok ids
        ∧ (store_chunks g chunks cid).1.length = chunks.length) := by
  constructor
  · intro g cid pre bad rest hpre hbad
    have h := storeChunksLoop_bad g cid pre bad rest 0 [] [] hpre hbad
    exact ⟨h.1, by rw [store_chunks, h.2]; simp⟩
  · intro g cid chunks hall
    obtain ⟨ids, h1, h2⟩ := storeChunksLoop_ok g cid chunks 0 [] [] hall
    exact ⟨ids, h1, by rw [store_chunks, h2]; simp⟩

/-- C6, witness: the amended behaviour evaluated on the counterexample
inputs: `[goodChunk, badChunk]` raises after storing one row, and
`[emptyEmbChunk]` succeeds storing one row. -/
theorem store_chunks_validation_witness :
    ((store_chunks (fun _ => "w") [goodChunk, badChunk] "cid").2 =
      Except.error "Chunk must have embedding field before storing"
    ∧ (store_chunks (fun _ => "w") [goodChunk, badChunk] "cid").1.length =
      ([goodChunk] : List InputChunk).length)
    ∧ ∃ ids, (store_chunks (fun _ => "w") [emptyEmbChunk] "cid").2 = Except.ok ids
      ∧ (store_chunks (fun _ => "w") [emptyEmbChunk] "cid").1.length =
        ([emptyEmbChunk] : List InputChunk).length :=
  ⟨store_chunks_validation.1 (fun _ => "w") "cid" [goodChunk] badChunk []
      (by
        intro c hc
        rw [List.mem_singleton] at hc
        subst hc
        rfl)
      rfl,
   store_chunks_validation.2 (fun _ => "w") "cid" [emptyEmbChunk]
      (by
        intro c hc
        rw [List.mem_singleton] at hc
        subst hc
        rfl)⟩

/-! ## Claim C8 -/

/-- C8, counterexample: a document whose status is `ready` with one
existing chunk but no `chunk_count` key in its metadata short-circuits and
returns `chunk_count = 0`, not the actual existing chunk count `1`: the
early return reads `metadata.get('chunk_count', 0)` instead of counting the
stored chunks (the existence check fetches at most one row). -/
theorem process_document_idempotent_cex :
    (process_document readyWorld "doc1").result = Except.ok 0
    ∧ readyWorld.existing_chunks = 1
    ∧ (0 : Nat) ≠ 1 :=
  ⟨rfl, rfl, by decide⟩

/-- C8, amended: on a document already `ready` for which at least one chunk
exists, `process_document` returns success immediately with the chunk count
recorded in the document's metadata (`0` when absent) — which need not equal
the number of existing chunks — performing zero embedding-provider calls, no
status updates and no chunk inserts. -/
theorem process_document_idempotent :
    ∀ (w : ProcWorld) (document_id : String) (d : DocRecord),
      w.fetched = Except.ok (some d) → d.status = "ready" → 0 < w.existing_chunks →
      process_document w document_id =
        { result := Except.ok (d.metadata.chunk_count.getD 0)
          status_updates := [], embed_calls := 0, stored_chunks := 0 } := by
  intro w document_id d hf hs he
  unfold process_document
  rw [hf]
  dsimp only
  rw [if_pos ⟨hs, he⟩]

/-- C8, witness: the amended short-circuit evaluated on `readyWorld`. -/
theorem process_document_idempotent_witness :
    process_document readyWorld "doc1" =
      { result := Except.ok 0, status_updates := [], embed_calls := 0
        stored_chunks := 0 } :=
  process_document_idempotent readyWorld "doc1" readyDoc rfl rfl (by decide)

/-! ## Claim C9 -/

/-- C9, counterexample: when extraction fails, the document status is set
to `failed` with the error persisted, but the wrapped exception is then
re-raised to the caller (document_processor.py line 151): the failure IS
propagated past the Source-status layer, refuting "the caller observes a
terminal status rather than a propagated exception". -/
theorem process_document_raise_cex :
    (process_document extractFailWorld "doc2").result =
      Except.error "Failed to process document: boom"
    ∧ (process_document extractFailWorld "doc2").status_updates =
      [⟨"processing", none⟩,
       ⟨"failed", some { emptyDocMeta with error := some "boom" }⟩] :=
  ⟨rfl, rfl⟩

/-- C9, amended: on a failure occurring after the document record is bound
(extraction failure, empty extracted text, or embedding-batch failure), the
status is transitioned to `failed` with the error message merged into the
persisted metadata, and the wrapped exception is then re-raised to the
direct caller (in the deployed flow a fire-and-forget asyncio task, whose
exception no HTTP caller observes); on a failure before the record is bound
(fetch error, document not found), no status update is written at all and
the wrapped exception propagates. -/
theorem process_document_failure_handling :
    (∀ (w : ProcWorld) (document_id e : String),
      w.fetched = Except.error e →
      process_document w document_id = preBindFailure e)
    ∧ (∀ (w : ProcWorld) (document_id e : String) (d : DocRecord),
      w.fetched = Except.ok (some d) →
      ¬(d.status = "ready" ∧ 0 < w.existing_chunks) →
      w.extracted = Except.error e →
      process_document w document_id = postBindFailure d e 0 0)
    ∧ (∀ (w : ProcWorld) (document_id e : String) (d : DocRecord)
        (text : List Char) (cs : List Chunk),
      w.fetched = Except.ok (some d) →
      ¬(d.status = "ready" ∧ 0 < w.existing_chunks) →
      w.extracted = Except.ok text → text ≠ [] →
      chunk_by_difficulty ⟨500, 50⟩ w.sects (d.difficulty.getD "intermediate")
        d.title = cs →
      cs ≠ [] →
      w.embed (cs.map Chunk.content) = Except.error e →
      process_document w document_id = postBindFailure d e 1 0) := by
  refine ⟨?_, ?_, ?_⟩
  · intro w document_id e hf
    unfold process_document
    rw [hf]
  · intro w document_id e d hf hnr hext
    unfold process_document
    rw [hf]
    dsimp only
    rw [if_neg hnr, hext]
  · intro w document_id e d text cs hf hnr hext htext hcs hcs0 hemb
    unfold process_document
    rw [hf]
    dsimp only
    rw [if_neg hnr, hext]
    dsimp only
    rw [if_neg htext]
    rw [hcs]
    have hne : (cs.map Chunk.content).isEmpty = false := by
      cases cs with
      | nil => cases hcs0 rfl
      | cons a t => rfl
    simp only [hne, Bool.false_eq_true, if_false, hemb]

/-- C9, witness: all three failure modes evaluated on concrete worlds —
a fetch failure leaves no status update, an extraction failure writes
`failed` then re-raises, and an embedding failure writes `failed` then
re-raises after one provider call. -/
theorem process_document_failure_handling_witness :
    process_document fetchFailWorld "doc3" = preBindFailure "db down"
    ∧ process_document extractFailWorld "doc2" = postBindFailure pendingDoc "boom" 0 0
    ∧ process_document embedFailWorld "doc4" =
        postBindFailure pendingDoc "rate limited" 1 0 :=
  ⟨process_document_failure_handling.1 fetchFailWorld "doc3" "db down" rfl,
   process_document_failure_handling.2.1 extractFailWorld "doc2" "boom" pendingDoc
     rfl (by decide) rfl,
   process_document_failure_handling.2.2 embedFailWorld "doc4" "rate limited"
     pendingDoc "hello".data
     [{ content := "hello".data, concept_name := "T", chunk_index := 0,
        chunk_type := "concept", metadata := [("difficulty", "intermediate")] }]
     rfl (by decide) rfl (by decide) (by decide) (by decide) rfl⟩

end MathMentor
